import Mathlib

/-!
Shallow embedding of the market-structure analysis core of
`analisis_mercado3_final.py` (Roberto-rgb-code/analizador-de-mercados).

Modelling conventions:
* a pandas row used by the core is a `Record` carrying the two columns the
  classification pipeline reads ("Nombre de la Unidad Económica" as
  `firm_name`, "Nombre de clase de la actividad" as `activity`);
* Python floats are modelled as `ℚ`, Python ints as `ℤ` (or `ℕ` where the
  value is a length);
* `df["col"].unique()` keeps the first occurrence of each value, modelled by
  `uniqueList`;
* `pandas.groupby` + `size` is modelled by filtering on each distinct key;
  on an empty frame the grouped division is elementwise over zero groups, so
  no division ever happens and the share list is empty;
* Python's `sorted(xs, reverse=True)` is a stable descending sort, modelled
  by `List.insertionSort (· ≥ ·)`;
* Python's `/` raises `ZeroDivisionError` on a zero divisor (for ints and
  floats alike); it is modelled by `pydiv` into `Option`, and the
  equilibrium solvers, whose bodies use `/`, therefore return `Option` of
  their result record, `none` marking a raised exception.
-/

/-- Record of the columns used by the classification core: one row of the
DENUE CSV, i.e. one business establishment. -/
structure Record where
  firm_name : String
  activity : String
deriving DecidableEq

/-- Model of `pandas.Series.unique`: the distinct values of a list in
first-seen order. -/
def uniqueList : List String → List String
  | [] => []
  | a :: l => a :: uniqueList (l.filter (fun x => x ≠ a))
termination_by l => l.length
decreasing_by
  simp only [List.length_cons]
  exact Nat.lt_succ_of_le (List.length_filter_le _ _)

/-- Embedding of `calculate_market_shares` (lines 7-19): group the rows by
firm name, count rows per firm, divide each count by the sum of the counts,
and return the share list together with `cr4`, the sum of the first four
shares after sorting descending. -/
def calculate_market_shares (df : List Record) : List ℚ × ℚ :=
  let firms := uniqueList (df.map (·.firm_name))
  let n_firms : List ℚ :=
    firms.map (fun f => ((df.filter (fun r => r.firm_name = f)).length : ℚ))
  let total_firms : ℚ := n_firms.sum
  let market_shares := n_firms.map (fun x => x / total_firms)
  let cr4 := ((market_shares.insertionSort (· ≥ ·)).take 4).sum
  (market_shares, cr4)

/-- Embedding of `calculate_hhi` (lines 21-23): sum of squared shares times
10000. -/
def calculate_hhi (market_shares : List ℚ) : ℚ :=
  (market_shares.map (fun share => share ^ 2)).sum * 10000

/-- Embedding of `determine_market_structure` (lines 25-39): ordered strict
threshold rules on HHI, CR4 and the firm count. -/
def determine_market_structure (hhi : ℚ) (cr4 : ℚ) (n_firms : ℕ) : String :=
  if hhi > 7500 ∧ cr4 > 9/10 then "Monopolio"
  else if hhi > 2500 ∧ cr4 > 3/5 then "Oligopolio"
  else if hhi > 1500 ∧ n_firms > 10 then "Competencia Monopolística"
  else "Competencia Perfecta"

/-- The dictionary `market_structures` of `analyze_all_market_structures`:
it is built with exactly the four category keys, each holding a list of
activity names. -/
structure MarketStructures where
  monopolio : List String
  oligopolio : List String
  competencia_monopolistica : List String
  competencia_perfecta : List String
deriving DecidableEq

/-- Appending an activity to the bucket of the category returned by
`determine_market_structure` (the dict lookup plus `append` of line 54).
`determine_market_structure` only ever returns one of the four keys, and its
fourth branch returns "Competencia Perfecta", so the final `else` is that
bucket. -/
def addStructure (ms : MarketStructures) (s : String) (activity : String) :
    MarketStructures :=
  if s = "Monopolio" then { ms with monopolio := ms.monopolio ++ [activity] }
  else if s = "Oligopolio" then
    { ms with oligopolio := ms.oligopolio ++ [activity] }
  else if s = "Competencia Monopolística" then
    { ms with competencia_monopolistica :=
        ms.competencia_monopolistica ++ [activity] }
  else { ms with competencia_perfecta := ms.competencia_perfecta ++ [activity] }

/-- Embedding of `analyze_all_market_structures` (lines 41-56): for each
distinct activity (in first-seen order), filter the frame to that activity,
compute shares, CR4 and HHI, take `n_firms = len(df_activity)` (the row
count, i.e. establishments), classify, and append the activity name to the
bucket of the resulting category.  The dict starts with all four keys mapped
to empty lists. -/
def analyze_all_market_structures (df : List Record) : MarketStructures :=
  (uniqueList (df.map (·.activity))).foldl
    (fun ms activity =>
      let df_activity := df.filter (fun r => r.activity = activity)
      let res := calculate_market_shares df_activity
      let hhi := calculate_hhi res.1
      let n_firms := df_activity.length
      addStructure ms (determine_market_structure hhi res.2 n_firms) activity)
    ⟨[], [], [], []⟩

/-- All bucket contents of the returned mapping, concatenated. -/
def allBuckets (ms : MarketStructures) : List String :=
  ms.monopolio ++ ms.oligopolio ++ ms.competencia_monopolistica ++
    ms.competencia_perfecta

/-- Dictionary-style lookup on the returned mapping: `some` exactly on the
four category keys the dict is built with. -/
def getBucket (ms : MarketStructures) (s : String) : Option (List String) :=
  if s = "Monopolio" then some ms.monopolio
  else if s = "Oligopolio" then some ms.oligopolio
  else if s = "Competencia Monopolística" then
    some ms.competencia_monopolistica
  else if s = "Competencia Perfecta" then some ms.competencia_perfecta
  else none

/-- Model of Python's `/` on floats: raises `ZeroDivisionError` (here
`none`) when the divisor is zero, otherwise exact division. -/
def pydiv (x y : ℚ) : Option ℚ :=
  if y = 0 then none else some (x / y)

/-- Result record of `cournot_model`. -/
structure CournotResult where
  Q_total : ℚ
  P_equilibrio : ℚ
  q_individual : ℚ
  beneficio_individual : ℚ
deriving DecidableEq

/-- Embedding of `cournot_model` (lines 58-70). -/
def cournot_model (n_firms : ℤ) (a b c : ℚ) : Option CournotResult := do
  let Q ← pydiv ((n_firms : ℚ) * (a - c)) (b * ((n_firms : ℚ) + 1))
  let P := a - b * Q
  let q_individual ← pydiv Q (n_firms : ℚ)
  let profit_individual := (P - c) * q_individual
  some ⟨Q, P, q_individual, profit_individual⟩

/-- Result record of `bertrand_model`. -/
structure BertrandResult where
  P_equilibrio : ℚ
  beneficio_individual : ℚ
deriving DecidableEq

/-- Embedding of `bertrand_model` (lines 72-77); it performs no division. -/
def bertrand_model (c : ℚ) : Option BertrandResult :=
  some ⟨c, 0⟩

/-- Result record of `stackelberg_model`. -/
structure StackelbergResult where
  q_lider : ℚ
  q_seguidor : ℚ
  Q_total : ℚ
  P_equilibrio : ℚ
  beneficio_lider : ℚ
  beneficio_seguidor : ℚ
deriving DecidableEq

/-- Embedding of `stackelberg_model` (lines 79-96). -/
def stackelberg_model (a b c : ℚ) : Option StackelbergResult := do
  let q_leader ← pydiv (a - c) (2 * b)
  let q_follower ← pydiv (a - c - b * q_leader) (2 * b)
  let Q := q_leader + q_follower
  let P := a - b * Q
  let profit_leader := (P - c) * q_leader
  let profit_follower := (P - c) * q_follower
  some ⟨q_leader, q_follower, Q, P, profit_leader, profit_follower⟩

/-- Result record of `cartel_model`. -/
structure CartelResult where
  Q_total : ℚ
  P_equilibrio : ℚ
  q_individual : ℚ
  beneficio_total : ℚ
  beneficio_individual : ℚ
deriving DecidableEq

/-- Embedding of `cartel_model` (lines 98-112). -/
def cartel_model (n_firms : ℤ) (a b c : ℚ) : Option CartelResult := do
  let Q ← pydiv (a - c) (2 * b)
  let P := a - b * Q
  let q_individual ← pydiv Q (n_firms : ℚ)
  let profit_total := (P - c) * Q
  let profit_individual ← pydiv profit_total (n_firms : ℚ)
  some ⟨Q, P, q_individual, profit_total, profit_individual⟩

/-- Result record of `perfect_competition_model`. -/
structure PerfectCompetitionResult where
  P_equilibrio : ℚ
  Q_total : ℚ
deriving DecidableEq

/-- Embedding of `perfect_competition_model` (lines 114-118). -/
def perfect_competition_model (a b c : ℚ) : Option PerfectCompetitionResult := do
  let P := c
  let Q ← pydiv (a - P) b
  some ⟨P, Q⟩

/-- Result record of `monopolistic_competition_model`. -/
structure MonopolisticCompetitionResult where
  P_equilibrio : ℚ
  q_individual : ℚ
  Q_total : ℚ
deriving DecidableEq

/-- Embedding of `monopolistic_competition_model` (lines 120-125). -/
def monopolistic_competition_model (n_firms : ℤ) (a b c d : ℚ) :
    Option MonopolisticCompetitionResult := do
  let P ← pydiv (a + c) 2
  let q ← pydiv (a - P) (b * (1 + d))
  let Q := (n_firms : ℚ) * q
  some ⟨P, q, Q⟩

/-- Result record of `monopoly_model`. -/
structure MonopolyResult where
  Q_total : ℚ
  P_equilibrio : ℚ
  beneficio : ℚ
deriving DecidableEq

/-- Embedding of `monopoly_model` (lines 127-132). -/
def monopoly_model (a b c : ℚ) : Option MonopolyResult := do
  let Q ← pydiv (a - c) (2 * b)
  let P := a - b * Q
  let profit := (P - c) * Q
  some ⟨Q, P, profit⟩

/-- Concrete dataset: one activity "act" with 5 distinct firms of 3
establishments each (15 rows).  Establishment count 15 exceeds the
`n_firms > 10` threshold while the distinct-firm count 5 does not, so it
separates the two possible firm-count conventions. -/
def dfC10 : List Record :=
  [⟨"F1", "act"⟩, ⟨"F1", "act"⟩, ⟨"F1", "act"⟩,
   ⟨"F2", "act"⟩, ⟨"F2", "act"⟩, ⟨"F2", "act"⟩,
   ⟨"F3", "act"⟩, ⟨"F3", "act"⟩, ⟨"F3", "act"⟩,
   ⟨"F4", "act"⟩, ⟨"F4", "act"⟩, ⟨"F4", "act"⟩,
   ⟨"F5", "act"⟩, ⟨"F5", "act"⟩, ⟨"F5", "act"⟩]

/-- Concrete dataset for witnesses: two firms, one establishment each, in a
single activity. -/
def dfW : List Record := [⟨"A", "x"⟩, ⟨"B", "x"⟩]

/-! ### Helper lemmas -/

theorem mem_uniqueList (a : String) (l : List String) :
    a ∈ uniqueList l ↔ a ∈ l := by
  induction l using uniqueList.induct with
  | case1 => simp [uniqueList]
  | case2 b l ih =>
    rw [uniqueList]
    by_cases hab : a = b
    · simp [hab]
    · simp only [List.mem_cons, ih, List.mem_filter]
      constructor
      · rintro (h | ⟨h, _⟩)
        · exact absurd h hab
        · exact Or.inr h
      · rintro (h | h)
        · exact absurd h hab
        · refine Or.inr ⟨h, ?_⟩
          simpa using hab

theorem uniqueList_nodup (l : List String) : (uniqueList l).Nodup := by
  induction l using uniqueList.induct with
  | case1 => simp [uniqueList]
  | case2 b l ih =>
    rw [uniqueList]
    refine List.Nodup.cons ?_ ih
    intro hmem
    rw [mem_uniqueList] at hmem
    simp at hmem

theorem sum_indicator (s : String) (ks : List String) :
    (ks.map (fun g => if s = g then 1 else 0)).sum = ks.count s := by
  induction ks with
  | nil => simp
  | cons g ks ih =>
    simp only [List.map_cons, List.sum_cons, ih, List.count_cons]
    by_cases h : s = g
    · simp [h, Nat.add_comm]
    · have h2 : ¬ g = s := fun hh => h hh.symm
      simp [h, h2]

theorem sum_filter_lengths {α : Type} (key : α → String) (ks : List String)
    (hnd : ks.Nodup) :
    ∀ (l : List α), (∀ x ∈ l, key x ∈ ks) →
      (ks.map (fun g => (l.filter (fun r => key r = g)).length)).sum = l.length := by
  intro l
  induction l with
  | nil => simp
  | cons x l ih =>
    intro h
    have hx : key x ∈ ks := h x (by simp)
    have hl : ∀ y ∈ l, key y ∈ ks := fun y hy => h y (by simp [hy])
    have hstep : ∀ g, ((x :: l).filter (fun r => key r = g)).length
        = (if key x = g then 1 else 0) + (l.filter (fun r => key r = g)).length := by
      intro g
      by_cases hxg : key x = g <;> simp [List.filter_cons, hxg, Nat.add_comm]
    calc (ks.map (fun g => ((x :: l).filter (fun r => key r = g)).length)).sum
        = (ks.map (fun g => (if key x = g then 1 else 0)
            + (l.filter (fun r => key r = g)).length)).sum := by
          exact congrArg List.sum (List.map_congr_left (fun g _ => hstep g))
      _ = (ks.map (fun g => if key x = g then 1 else 0)).sum
            + (ks.map (fun g => (l.filter (fun r => key r = g)).length)).sum := by
          rw [← List.sum_map_add]
      _ = 1 + l.length := by
          rw [ih hl, sum_indicator, List.count_eq_one_of_mem hnd hx]
      _ = (x :: l).length := by simp [Nat.add_comm]

theorem sum_map_div (l : List ℚ) (t : ℚ) :
    (l.map (fun x => x / t)).sum = l.sum / t := by
  induction l with
  | nil => simp
  | cons x xs ih => simp [ih, add_div]

theorem cast_sum_map {α : Type} (l : List α) (g : α → ℕ) :
    ((l.map (fun x => (g x : ℚ))).sum) = ((l.map g).sum : ℚ) := by
  induction l with
  | nil => simp
  | cons x xs ih => simp [ih]

theorem counts_sum_eq_length (df : List Record) :
    ((uniqueList (df.map (·.firm_name))).map
      (fun f => ((df.filter (fun r => r.firm_name = f)).length : ℚ))).sum
      = (df.length : ℚ) := by
  rw [cast_sum_map]
  have := sum_filter_lengths (·.firm_name) (uniqueList (df.map (·.firm_name)))
    (uniqueList_nodup _) df
    (fun x hx => (mem_uniqueList _ _).mpr (List.mem_map_of_mem _ hx))
  exact_mod_cast this

theorem market_shares_eq (df : List Record) :
    (calculate_market_shares df).1 =
      (uniqueList (df.map (·.firm_name))).map
        (fun f => ((df.filter (fun r => r.firm_name = f)).length : ℚ)
          / (df.length : ℚ)) := by
  unfold calculate_market_shares
  simp only [List.map_map]
  rw [counts_sum_eq_length]
  rfl

theorem shares_sum_eq_one (df : List Record) (h : df ≠ []) :
    (calculate_market_shares df).1.sum = 1 := by
  have hpos : (0:ℚ) < (df.length : ℚ) := by
    exact_mod_cast List.length_pos.mpr h
  unfold calculate_market_shares
  simp only [sum_map_div, counts_sum_eq_length]
  exact div_self (ne_of_gt hpos)

theorem shares_mem_bounds (df : List Record) (h : df ≠ []) :
    ∀ s ∈ (calculate_market_shares df).1, 0 ≤ s ∧ s ≤ 1 := by
  intro s hs
  rw [market_shares_eq] at hs
  obtain ⟨f, hf, rfl⟩ := List.mem_map.mp hs
  have hpos : (0:ℚ) < (df.length : ℚ) := by
    exact_mod_cast List.length_pos.mpr h
  refine ⟨div_nonneg (by positivity) (le_of_lt hpos), ?_⟩
  rw [div_le_one hpos]
  exact_mod_cast List.length_filter_le _ _

theorem shares_length_eq (df : List Record) :
    (calculate_market_shares df).1.length
      = (uniqueList (df.map (·.firm_name))).length := by
  unfold calculate_market_shares
  simp

theorem cr4_eq_sum_take (df : List Record) :
    (calculate_market_shares df).2 =
      (((calculate_market_shares df).1.insertionSort (· ≥ ·)).take 4).sum := rfl

theorem sum_take_le_sum (l : List ℚ) (h : ∀ x ∈ l, 0 ≤ x) (n : ℕ) :
    (l.take n).sum ≤ l.sum := by
  conv_rhs => rw [← List.take_append_drop n l]
  rw [List.sum_append]
  have hd : 0 ≤ (l.drop n).sum :=
    List.sum_nonneg (fun x hx => h x (List.mem_of_mem_drop hx))
  linarith

theorem cr4_le_one (df : List Record) (h : df ≠ []) :
    (calculate_market_shares df).2 ≤ 1 := by
  rw [cr4_eq_sum_take]
  have hperm := List.perm_insertionSort (· ≥ ·) (calculate_market_shares df).1
  have hnn : ∀ x ∈ (calculate_market_shares df).1.insertionSort (· ≥ ·), 0 ≤ x :=
    fun x hx => (shares_mem_bounds df h x (hperm.mem_iff.mp hx)).1
  calc (((calculate_market_shares df).1.insertionSort (· ≥ ·)).take 4).sum
      ≤ ((calculate_market_shares df).1.insertionSort (· ≥ ·)).sum :=
        sum_take_le_sum _ hnn 4
    _ = (calculate_market_shares df).1.sum := hperm.sum_eq
    _ = 1 := shares_sum_eq_one df h

theorem share_le_cr4 (df : List Record) (h : df ≠ []) :
    ∀ s ∈ (calculate_market_shares df).1, s ≤ (calculate_market_shares df).2 := by
  intro s hs
  rw [cr4_eq_sum_take]
  have hperm := List.perm_insertionSort (· ≥ ·) (calculate_market_shares df).1
  have hsort : ((calculate_market_shares df).1.insertionSort (· ≥ ·)).Sorted (· ≥ ·) :=
    List.sorted_insertionSort _ _
  have hmem : s ∈ (calculate_market_shares df).1.insertionSort (· ≥ ·) :=
    hperm.mem_iff.mpr hs
  have hnn : ∀ x ∈ (calculate_market_shares df).1.insertionSort (· ≥ ·), 0 ≤ x :=
    fun x hx => (shares_mem_bounds df h x (hperm.mem_iff.mp hx)).1
  cases hs' : (calculate_market_shares df).1.insertionSort (· ≥ ·) with
  | nil => rw [hs'] at hmem; simp at hmem
  | cons b rest =>
    rw [hs'] at hmem hsort hnn
    have hble : s ≤ b := by
      rcases List.mem_cons.mp hmem with rfl | hmem'
      · exact le_refl s
      · exact (List.sorted_cons.mp hsort).1 s hmem'
    have htake : ((b :: rest).take 4).sum = b + (rest.take 3).sum := by simp
    have hnn3 : 0 ≤ (rest.take 3).sum :=
      List.sum_nonneg (fun x hx =>
        hnn x (List.mem_cons_of_mem b (List.mem_of_mem_take hx)))
    rw [htake]
    linarith

theorem cr4_all_of_lt_four (df : List Record)
    (h : (calculate_market_shares df).1.length < 4) :
    (calculate_market_shares df).2 = (calculate_market_shares df).1.sum := by
  rw [cr4_eq_sum_take]
  have hperm := List.perm_insertionSort (· ≥ ·) (calculate_market_shares df).1
  rw [List.take_of_length_le, hperm.sum_eq]
  rw [hperm.length_eq]
  omega

theorem allBuckets_addStructure (ms : MarketStructures) (s activity : String) :
    (allBuckets (addStructure ms s activity)).Perm (activity :: allBuckets ms) := by
  unfold addStructure allBuckets
  split_ifs
  · simp only [List.append_assoc, List.singleton_append]
    exact List.perm_middle
  · simp only [List.append_assoc, List.singleton_append]
    exact (List.perm_middle.append_left _).trans List.perm_middle
  · simp only [List.append_assoc, List.singleton_append]
    exact (((List.perm_middle.append_left _).trans
      List.perm_middle).append_left _).trans List.perm_middle
  · simp only [List.append_assoc]
    exact ((((((List.perm_append_singleton _ _).append_left _).trans
      List.perm_middle).append_left _).trans
      List.perm_middle).append_left _).trans List.perm_middle

theorem allBuckets_foldl (F : String → String) :
    ∀ (l : List String) (ms : MarketStructures),
      (allBuckets (l.foldl (fun ms a => addStructure ms (F a) a) ms)).Perm
        (l ++ allBuckets ms) := by
  intro l
  induction l with
  | nil => intro ms; simp
  | cons a l ih =>
    intro ms
    simp only [List.foldl_cons, List.cons_append]
    refine (ih (addStructure ms (F a) a)).trans ?_
    refine (((allBuckets_addStructure ms (F a) a).append_left l).trans ?_)
    exact List.perm_middle

theorem analyze_allBuckets_perm (df : List Record) :
    (allBuckets (analyze_all_market_structures df)).Perm
      (uniqueList (df.map (·.activity))) := by
  unfold analyze_all_market_structures
  have h := allBuckets_foldl (fun activity =>
      determine_market_structure
        (calculate_hhi
          (calculate_market_shares (df.filter (fun r => r.activity = activity))).1)
        (calculate_market_shares (df.filter (fun r => r.activity = activity))).2
        (df.filter (fun r => r.activity = activity)).length)
    (uniqueList (df.map (·.activity))) ⟨[], [], [], []⟩
  simpa [allBuckets] using h

theorem sum_map_sub (l : List ℚ) (f g : ℚ → ℚ) :
    (l.map (fun x => f x - g x)).sum = (l.map f).sum - (l.map g).sum := by
  induction l with
  | nil => simp
  | cons x xs ih => simp [ih]; ring

theorem sum_map_eq_zero (l : List ℚ) (f : ℚ → ℚ) (hnn : ∀ x ∈ l, 0 ≤ f x)
    (hz : (l.map f).sum = 0) : ∀ x ∈ l, f x = 0 := by
  induction l with
  | nil => simp
  | cons a t ih =>
    simp only [List.map_cons, List.sum_cons] at hz
    have ha : 0 ≤ f a := hnn a (by simp)
    have ht : 0 ≤ (t.map f).sum :=
      List.sum_nonneg (by
        intro x hx
        obtain ⟨y, hy, rfl⟩ := List.mem_map.mp hx
        exact hnn y (by simp [hy]))
    have hfa : f a = 0 := by linarith
    intro x hx
    rcases List.mem_cons.mp hx with rfl | hx'
    · exact hfa
    · exact ih (fun y hy => hnn y (by simp [hy])) (by linarith) x hx'

theorem share_le_one_of_sum (l : List ℚ) (hpos : ∀ s ∈ l, 0 < s)
    (hsum : l.sum = 1) : ∀ s ∈ l, s ≤ 1 := by
  intro s hs
  have := List.single_le_sum (fun x hx => le_of_lt (hpos x hx)) s hs
  linarith

theorem sum_sq_le_one (l : List ℚ) (hpos : ∀ s ∈ l, 0 < s) (hsum : l.sum = 1) :
    (l.map (fun s => s ^ 2)).sum ≤ 1 := by
  have h := List.sum_le_sum (l := l) (f := fun s => s ^ 2) (g := fun s => s)
    (by
      intro s hs
      show s ^ 2 ≤ s
      have h1 := share_le_one_of_sum l hpos hsum s hs
      have h0 := hpos s hs
      nlinarith)
  simpa [hsum] using h

theorem sum_sq_pos (l : List ℚ) (hne : l ≠ []) (hpos : ∀ s ∈ l, 0 < s) :
    0 < (l.map (fun s => s ^ 2)).sum := by
  obtain ⟨a, t, rfl⟩ := List.exists_cons_of_ne_nil hne
  simp only [List.map_cons, List.sum_cons]
  have ha := hpos a (by simp)
  have ht : 0 ≤ (t.map (fun s => s ^ 2)).sum :=
    List.sum_nonneg (by
      intro x hx
      obtain ⟨y, hy, rfl⟩ := List.mem_map.mp hx
      positivity)
  nlinarith

theorem sum_sq_eq_one_iff (l : List ℚ) (hpos : ∀ s ∈ l, 0 < s)
    (hsum : l.sum = 1) : (l.map (fun s => s ^ 2)).sum = 1 ↔ l = [1] := by
  constructor
  · intro h
    have hall : ∀ s ∈ l, s - s ^ 2 = 0 := by
      apply sum_map_eq_zero l (fun s => s - s ^ 2)
      · intro s hs
        have h1 := share_le_one_of_sum l hpos hsum s hs
        have h0 := hpos s hs
        nlinarith
      · rw [sum_map_sub]
        simp only [List.map_id']
        rw [h]
        simp [hsum]
    have hone : ∀ s ∈ l, s = 1 := by
      intro s hs
      have h2 := hall s hs
      have h0 := hpos s hs
      have : s * (1 - s) = 0 := by ring_nf; ring_nf at h2; linarith
      rcases mul_eq_zero.mp this with h3 | h3
      · exact absurd h3 (ne_of_gt h0)
      · linarith
    have hrep : l = List.replicate l.length 1 :=
      List.eq_replicate_iff.mpr ⟨rfl, hone⟩
    have hlen : (l.length : ℚ) = 1 := by
      have := hsum
      rw [hrep] at this
      simpa [List.sum_replicate] using this
    have : l.length = 1 := by exact_mod_cast hlen
    rw [hrep, this]
    rfl
  · intro h
    rw [h]
    norm_num

theorem pydiv_eq_some (x y : ℚ) (h : y ≠ 0) : pydiv x y = some (x / y) := by
  simp [pydiv, h]

theorem pydiv_zero (x : ℚ) : pydiv x 0 = none := by
  simp [pydiv]

/-! ### Claim theorems -/

/-- Claim C1, counterexample: on the empty record collection
`calculate_market_shares` does not raise any `EmptyInputError` — it returns
the pair `([], 0)`, i.e. exactly the silent empty share list with cr4 = 0
that the claim says can never be returned. -/
theorem calculate_market_shares_empty_counterexample :
    calculate_market_shares ([] : List Record) = ([], 0) := by
  simp [calculate_market_shares, uniqueList]

/-- Claim C1 as amended: on the empty record collection
`calculate_market_shares` returns normally with an empty share list and
cr4 = 0; no division is evaluated elementwise over the zero groups, so no
NaN is produced (the share list is empty and contains no value at all). -/
theorem calculate_market_shares_empty_silent :
    (calculate_market_shares ([] : List Record)).1 = []
    ∧ (calculate_market_shares ([] : List Record)).2 = 0
    ∧ (calculate_market_shares ([] : List Record)).1.length = 0 := by
  refine ⟨?_, ?_, ?_⟩ <;> simp [calculate_market_shares, uniqueList]

/-- Claim C2: `determine_market_structure` evaluates the four rules in
order with first match winning and strict comparisons; each of the four
category outcomes is characterised exactly by its rule, negated earlier
rules included, and the boundary point hhi = 7500, cr4 = 1 falls through to
the Oligopoly rule, never Monopoly. -/
theorem determine_market_structure_ordered_rules (hhi cr4 : ℚ) (n : ℕ) :
    (determine_market_structure hhi cr4 n = "Monopolio"
      ↔ (hhi > 7500 ∧ cr4 > 9/10)) ∧
    (determine_market_structure hhi cr4 n = "Oligopolio"
      ↔ (¬(hhi > 7500 ∧ cr4 > 9/10) ∧ hhi > 2500 ∧ cr4 > 3/5)) ∧
    (determine_market_structure hhi cr4 n = "Competencia Monopolística"
      ↔ (¬(hhi > 7500 ∧ cr4 > 9/10) ∧ ¬(hhi > 2500 ∧ cr4 > 3/5)
          ∧ hhi > 1500 ∧ n > 10)) ∧
    (determine_market_structure hhi cr4 n = "Competencia Perfecta"
      ↔ (¬(hhi > 7500 ∧ cr4 > 9/10) ∧ ¬(hhi > 2500 ∧ cr4 > 3/5)
          ∧ ¬(hhi > 1500 ∧ n > 10))) ∧
    determine_market_structure 7500 1 n = "Oligopolio" ∧
    determine_market_structure 7500 1 n ≠ "Monopolio" := by
  refine ⟨?_, ?_, ?_, ?_, ?_, ?_⟩
  · unfold determine_market_structure
    split_ifs with h1 h2 h3 <;> simp_all
  · unfold determine_market_structure
    split_ifs with h1 h2 h3 <;> simp_all
  · unfold determine_market_structure
    split_ifs with h1 h2 h3 <;> simp_all
  · unfold determine_market_structure
    split_ifs with h1 h2 h3 <;> simp_all
  · norm_num [determine_market_structure]
  · norm_num [determine_market_structure]
    decide

/-- Claim C3: the mapping returned by `analyze_all_market_structures` has
all four category keys present, and its buckets partition the distinct
activity values: the total number of bucketed activity names equals the
number of distinct activities, and each distinct activity occurs exactly
once across all buckets (zero times if it is not an activity of the
input). -/
theorem analyze_partitions_activities (df : List Record) :
    (getBucket (analyze_all_market_structures df) "Monopolio").isSome ∧
    (getBucket (analyze_all_market_structures df) "Oligopolio").isSome ∧
    (getBucket (analyze_all_market_structures df)
      "Competencia Monopolística").isSome ∧
    (getBucket (analyze_all_market_structures df) "Competencia Perfecta").isSome ∧
    (allBuckets (analyze_all_market_structures df)).length
      = (uniqueList (df.map (·.activity))).length ∧
    (∀ a, (allBuckets (analyze_all_market_structures df)).count a
      = if a ∈ df.map (·.activity) then 1 else 0) := by
  refine ⟨by simp [getBucket], by simp [getBucket], by simp [getBucket],
    by simp [getBucket], ?_, ?_⟩
  · exact (analyze_allBuckets_perm df).length_eq
  · intro a
    rw [(analyze_allBuckets_perm df).count_eq]
    by_cases hmem : a ∈ df.map (·.activity)
    · rw [if_pos hmem]
      exact List.count_eq_one_of_mem (uniqueList_nodup _)
        ((mem_uniqueList _ _).mpr hmem)
    · rw [if_neg hmem]
      exact List.count_eq_zero_of_not_mem
        (fun hc => hmem ((mem_uniqueList _ _).mp hc))

/-- Claim C4: for a non-empty record collection the shares returned by
`calculate_market_shares` are each that firm's record count divided by the
total record count, lie in [0, 1], sum to exactly 1, and there is one share
per distinct firm. -/
theorem calculate_market_shares_spec (df : List Record) (h : df ≠ []) :
    (calculate_market_shares df).1
      = (uniqueList (df.map (·.firm_name))).map
          (fun f => ((df.filter (fun r => r.firm_name = f)).length : ℚ)
            / (df.length : ℚ)) ∧
    (∀ s ∈ (calculate_market_shares df).1, 0 ≤ s ∧ s ≤ 1) ∧
    (calculate_market_shares df).1.sum = 1 ∧
    (calculate_market_shares df).1.length
      = (uniqueList (df.map (·.firm_name))).length :=
  ⟨market_shares_eq df, shares_mem_bounds df h, shares_sum_eq_one df h,
    shares_length_eq df⟩

/-- Witness for C4: the two-firm dataset `dfW` is non-empty, its shares are
[1/2, 1/2] and they sum to 1. -/
theorem calculate_market_shares_spec_witness :
    dfW ≠ [] ∧ (calculate_market_shares dfW).1 = [1/2, 1/2] ∧
    (calculate_market_shares dfW).1.sum = 1 :=
  ⟨by simp [dfW],
   by simp [calculate_market_shares, dfW, uniqueList]; norm_num,
   (calculate_market_shares_spec dfW (by simp [dfW])).2.2.1⟩

/-- Claim C5: for a non-empty record collection, the cr4 component equals
the sum of the first 4 shares after sorting descending; it equals the sum of
all shares when there are fewer than 4 distinct firms; every single share is
at most cr4 (hence the largest is); and cr4 is at most 1. -/
theorem cr4_spec (df : List Record) (h : df ≠ []) :
    (calculate_market_shares df).2
      = (((calculate_market_shares df).1.insertionSort (· ≥ ·)).take 4).sum ∧
    ((calculate_market_shares df).1.length < 4 →
      (calculate_market_shares df).2 = (calculate_market_shares df).1.sum) ∧
    (∀ s ∈ (calculate_market_shares df).1,
      s ≤ (calculate_market_shares df).2) ∧
    (calculate_market_shares df).2 ≤ 1 :=
  ⟨cr4_eq_sum_take df, fun hlen => cr4_all_of_lt_four df hlen,
    share_le_cr4 df h, cr4_le_one df h⟩

/-- Witness for C5: on `dfW` (two firms) cr4 evaluates to 1, which is at
most 1, and it equals the sum of both shares since there are fewer than 4
firms. -/
theorem cr4_spec_witness :
    dfW ≠ [] ∧ (calculate_market_shares dfW).2 ≤ 1 ∧
    (calculate_market_shares dfW).2 = (calculate_market_shares dfW).1.sum := by
  have h := cr4_spec dfW (by simp [dfW])
  refine ⟨by simp [dfW], h.2.2.2, h.2.1 ?_⟩
  simp [calculate_market_shares, dfW, uniqueList]

/-- Claim C6, counterexample: the share list [0, 1] is non-empty, has
non-negative entries summing to 1, and is not [1], yet `calculate_hhi`
evaluates to exactly 10000 on it — so over non-negative share sets the value
10000 is not attained only at [1]. -/
theorem calculate_hhi_zero_share_counterexample :
    (∀ s ∈ ([0, 1] : List ℚ), 0 ≤ s) ∧ ([0, 1] : List ℚ).sum = 1 ∧
    calculate_hhi [0, 1] = 10000 ∧ ([0, 1] : List ℚ) ≠ [1] := by
  refine ⟨?_, ?_, ?_, ?_⟩ <;> norm_num [calculate_hhi]

/-- Claim C6 as amended (non-negative strengthened to strictly positive,
which a zero share such as in [0, 1] forces): `calculate_hhi` returns 10000
times the sum of squared shares, returns 0 on the empty list, and for every
non-empty list of strictly positive shares summing to 1 the result lies in
(0, 10000], with 10000 attained exactly on the share list [1]. -/
theorem calculate_hhi_spec (l : List ℚ) (hne : l ≠ [])
    (hpos : ∀ s ∈ l, 0 < s) (hsum : l.sum = 1) :
    calculate_hhi l = (l.map (fun s => s ^ 2)).sum * 10000 ∧
    calculate_hhi [] = 0 ∧
    0 < calculate_hhi l ∧ calculate_hhi l ≤ 10000 ∧
    (calculate_hhi l = 10000 ↔ l = [1]) := by
  have h1 := sum_sq_pos l hne hpos
  have h2 := sum_sq_le_one l hpos hsum
  refine ⟨rfl, by norm_num [calculate_hhi], ?_, ?_, ?_⟩
  · unfold calculate_hhi
    nlinarith
  · unfold calculate_hhi
    nlinarith
  · unfold calculate_hhi
    rw [← sum_sq_eq_one_iff l hpos hsum]
    constructor
    · intro h
      nlinarith
    · intro h
      rw [h]
      norm_num

/-- Witness for C6: the share list [1/2, 1/2] is non-empty, positive and
sums to 1; its HHI is 5000, which lies in (0, 10000]. -/
theorem calculate_hhi_spec_witness :
    ([1/2, 1/2] : List ℚ) ≠ [] ∧ calculate_hhi [1/2, 1/2] = 5000 ∧
    (0:ℚ) < calculate_hhi [1/2, 1/2] ∧ calculate_hhi [1/2, 1/2] ≤ 10000 := by
  have h := calculate_hhi_spec [1/2, 1/2] (by simp)
    (by norm_num) (by norm_num)
  exact ⟨by simp, by norm_num [calculate_hhi], h.2.2.1, h.2.2.2.1⟩

/-- Claim C7, counterexample: with b = 0 the Cournot solver divides by
`b * (n + 1) = 0` and raises `ZeroDivisionError` (modelled as `none`), so
the solvers are not total over every real parameter value. -/
theorem cournot_zero_b_counterexample : cournot_model 2 100 0 20 = none := by
  simp [cournot_model, pydiv]

/-- Claim C7 as amended: each of the seven solvers is a pure function that
returns its fixed-shape result record whenever its divisors are non-zero —
for every parameter set with firm count n ≥ 1, slope b ≠ 0 and (for the
monopolistic-competition solver) differentiation d ≠ -1; with b = 0 the
division-based solvers raise instead of returning. -/
theorem solvers_total_spec (n : ℤ) (a b c d : ℚ)
    (hn : 1 ≤ n) (hb : b ≠ 0) (hd : d ≠ -1) :
    (cournot_model n a b c).isSome ∧
    (bertrand_model c).isSome ∧
    (stackelberg_model a b c).isSome ∧
    (cartel_model n a b c).isSome ∧
    (perfect_competition_model a b c).isSome ∧
    (monopolistic_competition_model n a b c d).isSome ∧
    (monopoly_model a b c).isSome := by
  have hnq : (1:ℚ) ≤ (n:ℚ) := by exact_mod_cast hn
  have hn0 : (n:ℚ) ≠ 0 := by intro h; rw [h] at hnq; linarith
  have hn1 : b * ((n:ℚ) + 1) ≠ 0 :=
    mul_ne_zero hb (by intro h; nlinarith)
  have h2b : (2:ℚ) * b ≠ 0 := mul_ne_zero two_ne_zero hb
  have hd1 : b * (1 + d) ≠ 0 :=
    mul_ne_zero hb (by intro h; apply hd; linarith)
  refine ⟨?_, ?_, ?_, ?_, ?_, ?_, ?_⟩ <;>
    simp [cournot_model, bertrand_model, stackelberg_model, cartel_model,
      perfect_competition_model, monopolistic_competition_model,
      monopoly_model, pydiv, hb, hn0, hn1, h2b, hd1]

/-- Witness for C7: at n = 2, a = 100, b = 1, c = 20, d = 1/2 every solver
returns a result record. -/
theorem solvers_total_spec_witness :
    (1:ℤ) ≤ 2 ∧ (1:ℚ) ≠ 0 ∧ (1/2 : ℚ) ≠ -1 ∧
    (cournot_model 2 100 1 20).isSome ∧ (monopoly_model 100 1 20).isSome := by
  have h := solvers_total_spec 2 100 1 20 (1/2)
    (by norm_num) (by norm_num) (by norm_num)
  exact ⟨by norm_num, by norm_num, by norm_num, h.1, h.2.2.2.2.2.2⟩

/-- Claim C8: for every n > 0 and b ≠ 0, `cournot_model` returns exactly
Q = n(a-c)/(b(n+1)), P = a - bQ, q_i = Q/n and profit (P-c)·q_i; at the
concrete scenario n = 2, a = 100, b = 1, c = 20 it returns Q = 160/3,
P = 140/3, q_i = 80/3 and profit 6400/9, each within 0.1 of the quoted
decimal values 53.333, 46.667, 26.667 and 711.1. -/
theorem cournot_formula_spec (n : ℤ) (a b c : ℚ) (hn : 0 < n) (hb : b ≠ 0) :
    cournot_model n a b c = some
      { Q_total := (n:ℚ) * (a - c) / (b * ((n:ℚ) + 1)),
        P_equilibrio := a - b * ((n:ℚ) * (a - c) / (b * ((n:ℚ) + 1))),
        q_individual := (n:ℚ) * (a - c) / (b * ((n:ℚ) + 1)) / (n:ℚ),
        beneficio_individual :=
          ((a - b * ((n:ℚ) * (a - c) / (b * ((n:ℚ) + 1)))) - c)
            * ((n:ℚ) * (a - c) / (b * ((n:ℚ) + 1)) / (n:ℚ)) } ∧
    cournot_model 2 100 1 20 = some
      { Q_total := 160/3, P_equilibrio := 140/3,
        q_individual := 80/3, beneficio_individual := 6400/9 } ∧
    |(160:ℚ)/3 - 53333/1000| ≤ 1/10 ∧ |(140:ℚ)/3 - 46667/1000| ≤ 1/10 ∧
    |(80:ℚ)/3 - 26667/1000| ≤ 1/10 ∧ |(6400:ℚ)/9 - 7111/10| ≤ 1/10 := by
  have hnq : (0:ℚ) < (n:ℚ) := by exact_mod_cast hn
  have hn0 : (n:ℚ) ≠ 0 := ne_of_gt hnq
  have hn1 : b * ((n:ℚ) + 1) ≠ 0 := mul_ne_zero hb (by nlinarith)
  refine ⟨?_, ?_, ?_, ?_, ?_, ?_⟩
  · simp [cournot_model, pydiv, hn0, hn1]
  · norm_num [cournot_model, pydiv]
  · rw [abs_le]; constructor <;> norm_num
  · rw [abs_le]; constructor <;> norm_num
  · rw [abs_le]; constructor <;> norm_num
  · rw [abs_le]; constructor <;> norm_num

/-- Witness for C8: the theorem applied at the concrete scenario n = 2,
a = 100, b = 1, c = 20. -/
theorem cournot_formula_spec_witness :
    cournot_model 2 100 1 20 = some
      { Q_total := 160/3, P_equilibrio := 140/3,
        q_individual := 80/3, beneficio_individual := 6400/9 } :=
  (cournot_formula_spec 2 100 1 20 (by norm_num) (by norm_num)).2.1

/-- Claim C9: with degenerate economics a ≤ c (and b > 0, n ≥ 1) the
quantity-producing solvers `monopoly_model` and `cournot_model` return
normally, and the returned total quantity is non-positive: zero when a = c
and strictly negative when a < c. -/
theorem degenerate_params_spec (n : ℤ) (a b c : ℚ)
    (hn : 1 ≤ n) (hb : 0 < b) (hac : a ≤ c) :
    (∃ r, monopoly_model a b c = some r ∧ r.Q_total ≤ 0 ∧
      (a = c → r.Q_total = 0) ∧ (a < c → r.Q_total < 0)) ∧
    (∃ r, cournot_model n a b c = some r ∧ r.Q_total ≤ 0 ∧
      (a = c → r.Q_total = 0) ∧ (a < c → r.Q_total < 0)) := by
  have hnq : (1:ℚ) ≤ (n:ℚ) := by exact_mod_cast hn
  have hn0 : (n:ℚ) ≠ 0 := by intro h; rw [h] at hnq; linarith
  have h2b : (0:ℚ) < 2 * b := by linarith
  have hbn1 : (0:ℚ) < b * ((n:ℚ) + 1) := by nlinarith
  constructor
  · refine ⟨⟨(a - c) / (2 * b), a - b * ((a - c) / (2 * b)),
      ((a - b * ((a - c) / (2 * b))) - c) * ((a - c) / (2 * b))⟩,
      ?_, ?_, ?_, ?_⟩
    · simp [monopoly_model, pydiv, ne_of_gt h2b]
    · exact div_nonpos_of_nonpos_of_nonneg (by linarith) (le_of_lt h2b)
    · intro h; simp [h]
    · intro h
      exact div_neg_of_neg_of_pos (by linarith) h2b
  · refine ⟨⟨(n:ℚ) * (a - c) / (b * ((n:ℚ) + 1)),
      a - b * ((n:ℚ) * (a - c) / (b * ((n:ℚ) + 1))),
      (n:ℚ) * (a - c) / (b * ((n:ℚ) + 1)) / (n:ℚ),
      ((a - b * ((n:ℚ) * (a - c) / (b * ((n:ℚ) + 1)))) - c)
        * ((n:ℚ) * (a - c) / (b * ((n:ℚ) + 1)) / (n:ℚ))⟩, ?_, ?_, ?_, ?_⟩
    · simp [cournot_model, pydiv, hn0, ne_of_gt hbn1]
    · apply div_nonpos_of_nonpos_of_nonneg _ (le_of_lt hbn1)
      nlinarith
    · intro h; simp [h]
    · intro h
      apply div_neg_of_neg_of_pos _ hbn1
      nlinarith

/-- Witness for C9: at n = 2, a = 10, b = 1, c = 20 (a < c) both solvers
return records with strictly negative total quantity. -/
theorem degenerate_params_spec_witness :
    (∃ r, monopoly_model 10 1 20 = some r ∧ r.Q_total < 0) ∧
    (∃ r, cournot_model 2 10 1 20 = some r ∧ r.Q_total < 0) := by
  have h := degenerate_params_spec 2 10 1 20
    (by norm_num) (by norm_num) (by norm_num)
  obtain ⟨⟨r1, h1, _, _, h1n⟩, ⟨r2, h2, _, _, h2n⟩⟩ := h
  exact ⟨⟨r1, h1, h1n (by norm_num)⟩, ⟨r2, h2, h2n (by norm_num)⟩⟩

/-- Claim C10: `analyze_all_market_structures` passes the establishment
count `len(df_activity)` to the classifier, not the distinct-firm count.
On `dfC10` (one activity, 15 establishments of 5 distinct firms, HHI 2000)
the activity is bucketed as Monopolistic Competition because 15 > 10,
whereas classifying with the distinct-firm count 5 would give Perfect
Competition. -/
theorem firm_count_is_establishment_count :
    analyze_all_market_structures dfC10 = ⟨[], [], ["act"], []⟩ ∧
    dfC10.length = 15 ∧
    (uniqueList (dfC10.map (·.firm_name))).length = 5 ∧
    determine_market_structure
      (calculate_hhi (calculate_market_shares dfC10).1)
      (calculate_market_shares dfC10).2
      dfC10.length = "Competencia Monopolística" ∧
    determine_market_structure
      (calculate_hhi (calculate_market_shares dfC10).1)
      (calculate_market_shares dfC10).2
      (uniqueList (dfC10.map (·.firm_name))).length
      = "Competencia Perfecta" := by
  have hshares : (calculate_market_shares dfC10).1
      = [1/5, 1/5, 1/5, 1/5, 1/5] := by
    simp [calculate_market_shares, dfC10, uniqueList]
    norm_num
  have hcr4 : (calculate_market_shares dfC10).2 = 4/5 := by
    simp [calculate_market_shares, dfC10, uniqueList]
    norm_num [List.insertionSort, List.orderedInsert]
  have hhhi : calculate_hhi (calculate_market_shares dfC10).1 = 2000 := by
    rw [hshares]
    norm_num [calculate_hhi]
  have hact : uniqueList (dfC10.map (·.activity)) = ["act"] := by
    simp [dfC10, uniqueList]
  have hfilter : dfC10.filter (fun r => r.activity = "act") = dfC10 := by
    simp [dfC10]
  have hlen : dfC10.length = 15 := by simp [dfC10]
  have hfirms : (uniqueList (dfC10.map (·.firm_name))).length = 5 := by
    simp [dfC10, uniqueList]
  refine ⟨?_, hlen, hfirms, ?_, ?_⟩
  · unfold analyze_all_market_structures
    rw [hact]
    simp only [List.foldl_cons, List.foldl_nil]
    rw [hfilter, hhhi, hcr4, hlen]
    norm_num [determine_market_structure, addStructure]
    decide
  · rw [hhhi, hcr4, hlen]
    norm_num [determine_market_structure]
  · rw [hhhi, hcr4, hfirms]
    norm_num [determine_market_structure]
